import Mathlib

/-!
Verification of the RBF kernel evaluator `autofunc0` from
`src/rbf/_rbf_ufuncs/wrapped_code_4.c`, a sympy-generated order-7
polyharmonic kernel evaluation in 2D.  The C function is embedded over
the real numbers: `pow(a, 2)` and `pow(eps, 7)` become natural-number
powers, `sqrt` becomes `Real.sqrt`, and `pow(d, 7.0/2.0)` becomes the
real power `d ^ ((7:ℝ)/2)`.
-/

open Real

/-- Embedding of `autofunc0` from `wrapped_code_4.c`:
if `sqrt(pow(-c0 + x0, 2) + pow(-c1 + x1, 2)) <= 0.0` the result is `0`,
otherwise it is `pow(eps, 7) * pow(pow(-c0 + x0, 2) + pow(-c1 + x1, 2), 7.0/2.0)`. -/
noncomputable def autofunc0 (x0 x1 c0 c1 eps : ℝ) : ℝ :=
  if Real.sqrt ((-c0 + x0) ^ 2 + (-c1 + x1) ^ 2) ≤ 0.0 then 0
  else eps ^ 7 * ((-c0 + x0) ^ 2 + (-c1 + x1) ^ 2) ^ ((7 : ℝ) / 2)

/-- Modelled from the spec: the unguarded closed-form expression
`eps^7 * ((x0-c0)^2 + (x1-c1)^2)^(7/2)` with no special case at the
center, used to compare against the guarded `autofunc0` (claim C9). -/
noncomputable def evaluateUnguarded (x0 x1 c0 c1 eps : ℝ) : ℝ :=
  eps ^ 7 * ((x0 - c0) ^ 2 + (x1 - c1) ^ 2) ^ ((7 : ℝ) / 2)

/-- A nonnegative real raised to the real power `7/2` is the seventh
power of its square root. -/
lemma rpow_seven_halves {a : ℝ} (ha : 0 ≤ a) :
    a ^ ((7 : ℝ) / 2) = (Real.sqrt a) ^ 7 := by
  rw [show ((7 : ℝ) / 2) = (1 / 2) * 7 by ring, Real.rpow_mul ha,
    ← Real.sqrt_eq_rpow, show ((7 : ℝ)) = ((7 : ℕ) : ℝ) by norm_num,
    Real.rpow_natCast]

/-- On inputs whose squared distance from the center is nonzero,
`autofunc0` takes the else-branch and equals `eps^7 * (sqrt d2)^7`. -/
lemma autofunc0_of_ne {x0 x1 c0 c1 eps : ℝ}
    (h : (-c0 + x0) ^ 2 + (-c1 + x1) ^ 2 ≠ 0) :
    autofunc0 x0 x1 c0 c1 eps
      = eps ^ 7 * (Real.sqrt ((-c0 + x0) ^ 2 + (-c1 + x1) ^ 2)) ^ 7 := by
  have hpos : 0 < (-c0 + x0) ^ 2 + (-c1 + x1) ^ 2 :=
    lt_of_le_of_ne (by positivity) (Ne.symm h)
  have h00 : (0.0 : ℝ) = 0 := by norm_num
  unfold autofunc0
  rw [h00, if_neg (not_le.mpr (Real.sqrt_pos.mpr hpos)),
    rpow_seven_halves (le_of_lt hpos)]

/-- On inputs whose squared distance from the center is zero,
`autofunc0` takes the then-branch and returns `0`. -/
lemma autofunc0_of_eq {x0 x1 c0 c1 eps : ℝ}
    (h : (-c0 + x0) ^ 2 + (-c1 + x1) ^ 2 = 0) :
    autofunc0 x0 x1 c0 c1 eps = 0 := by
  unfold autofunc0
  rw [if_pos]
  rw [h, Real.sqrt_zero]
  norm_num

/-- The squared distance written with subtraction, as in the claims,
equals the squared distance written with negated addition, as in the
generated C code. -/
lemma d2_comm (x0 x1 c0 c1 : ℝ) :
    (x0 - c0) ^ 2 + (x1 - c1) ^ 2 = (-c0 + x0) ^ 2 + (-c1 + x1) ^ 2 := by
  ring

/-- C1: for every input whose Euclidean distance
`r = sqrt((x0-c0)^2 + (x1-c1)^2)` from the center is strictly positive,
`autofunc0 x0 x1 c0 c1 eps` equals `eps^7 * r^7`. -/
theorem autofunc0_pos_distance (x0 x1 c0 c1 eps : ℝ)
    (h : 0 < Real.sqrt ((x0 - c0) ^ 2 + (x1 - c1) ^ 2)) :
    autofunc0 x0 x1 c0 c1 eps
      = eps ^ 7 * (Real.sqrt ((x0 - c0) ^ 2 + (x1 - c1) ^ 2)) ^ 7 := by
  rw [d2_comm] at h ⊢
  exact autofunc0_of_ne (ne_of_gt (Real.sqrt_pos.mp h))

/-- Witness for C1 at the concrete input `(3, 4, 0, 0, 2)`, whose
distance from the center is `sqrt 25 = 5 > 0`. -/
theorem autofunc0_pos_distance_witness :
    autofunc0 3 4 0 0 2
      = 2 ^ 7 * (Real.sqrt ((3 - 0) ^ 2 + (4 - 0) ^ 2)) ^ 7 :=
  autofunc0_pos_distance 3 4 0 0 2 (Real.sqrt_pos.mpr (by norm_num))

/-- C2: evaluating the kernel at the center itself returns exactly zero:
`autofunc0 c0 c1 c0 c1 eps = 0` for all `c0, c1, eps`. -/
theorem autofunc0_at_center (c0 c1 eps : ℝ) :
    autofunc0 c0 c1 c0 c1 eps = 0 :=
  autofunc0_of_eq (by ring)

/-- Counterexample to C3: at `(x0, x1) = (1, 0)`, center `(0, 0)` and
`eps = -1`, the result is `-1`, which is strictly negative, refuting the
claim that the result is nonnegative for every real `eps`. -/
theorem autofunc0_neg_eps_counterexample :
    autofunc0 1 0 0 0 (-1) < 0 := by
  have h : autofunc0 1 0 0 0 (-1)
      = (-1 : ℝ) ^ 7 * (Real.sqrt ((-0 + 1) ^ 2 + (-0 + 0) ^ 2)) ^ 7 :=
    autofunc0_of_ne (by norm_num)
  rw [h, show ((-0 + 1 : ℝ)) ^ 2 + (-0 + 0) ^ 2 = 1 by norm_num,
    Real.sqrt_one]
  norm_num

/-- C3 amended: the result is nonnegative whenever the shape parameter
is nonnegative (for negative `eps` the result can be negative). -/
theorem autofunc0_nonneg_amended (x0 x1 c0 c1 eps : ℝ) (heps : 0 ≤ eps) :
    0 ≤ autofunc0 x0 x1 c0 c1 eps := by
  unfold autofunc0
  split
  · norm_num
  · exact mul_nonneg (pow_nonneg heps 7) (Real.rpow_nonneg (by positivity) _)

/-- Witness for the amended C3 at the concrete input `(3, 4, 0, 0, 2)`. -/
theorem autofunc0_nonneg_amended_witness :
    0 ≤ autofunc0 3 4 0 0 2 :=
  autofunc0_nonneg_amended 3 4 0 0 2 (by norm_num)

/-- C4: for every `x0, x1, c0, c1` and every `eps ≥ 0`,
`autofunc0 x0 x1 c0 c1 eps ≥ 0`. -/
theorem autofunc0_nonneg (x0 x1 c0 c1 eps : ℝ) (heps : 0 ≤ eps) :
    0 ≤ autofunc0 x0 x1 c0 c1 eps := by
  unfold autofunc0
  split
  · norm_num
  · exact mul_nonneg (pow_nonneg heps 7) (Real.rpow_nonneg (by positivity) _)

/-- Witness for C4 at the concrete input `(1, 0, 0, 0, 1)`. -/
theorem autofunc0_nonneg_witness :
    0 ≤ autofunc0 1 0 0 0 1 :=
  autofunc0_nonneg 1 0 0 0 1 (by norm_num)

/-- C5: for every negative `eps` and every input whose distance from
the center is strictly positive, the result of `autofunc0` is strictly
negative. -/
theorem autofunc0_neg_of_neg_eps (x0 x1 c0 c1 eps : ℝ) (heps : eps < 0)
    (h : 0 < Real.sqrt ((x0 - c0) ^ 2 + (x1 - c1) ^ 2)) :
    autofunc0 x0 x1 c0 c1 eps < 0 := by
  rw [d2_comm] at h
  rw [autofunc0_of_ne (ne_of_gt (Real.sqrt_pos.mp h))]
  have h7 : eps ^ 7 < 0 := Odd.pow_neg (by decide) heps
  have hr : 0 < (Real.sqrt ((-c0 + x0) ^ 2 + (-c1 + x1) ^ 2)) ^ 7 :=
    pow_pos (Real.sqrt_pos.mpr (Real.sqrt_pos.mp h)) 7
  exact mul_neg_of_neg_of_pos h7 hr

/-- Witness for C5 at the concrete input `(1, 0, 0, 0, -2)`, whose
distance from the center is `1 > 0`. -/
theorem autofunc0_neg_of_neg_eps_witness :
    autofunc0 1 0 0 0 (-2) < 0 :=
  autofunc0_neg_of_neg_eps 1 0 0 0 (-2) (by norm_num)
    (Real.sqrt_pos.mpr (by norm_num))

/-- C6: odd-power homogeneity in the shape parameter: for every input
with distance `r > 0` from the center and every real `k`,
`autofunc0 x0 x1 c0 c1 (k*eps) = k^7 * autofunc0 x0 x1 c0 c1 eps`. -/
theorem autofunc0_eps_scaling (x0 x1 c0 c1 eps k : ℝ)
    (h : 0 < Real.sqrt ((x0 - c0) ^ 2 + (x1 - c1) ^ 2)) :
    autofunc0 x0 x1 c0 c1 (k * eps) = k ^ 7 * autofunc0 x0 x1 c0 c1 eps := by
  rw [d2_comm] at h
  have hne := ne_of_gt (Real.sqrt_pos.mp h)
  rw [autofunc0_of_ne hne, autofunc0_of_ne hne]
  ring

/-- Witness for C6 at the concrete input `(1, 0, 0, 0)` with `eps = 1`
and `k = 3`. -/
theorem autofunc0_eps_scaling_witness :
    autofunc0 1 0 0 0 (3 * 1) = 3 ^ 7 * autofunc0 1 0 0 0 1 :=
  autofunc0_eps_scaling 1 0 0 0 1 3 (Real.sqrt_pos.mpr (by norm_num))

/-- C7: symmetry under exchanging the evaluation point and the center:
`autofunc0 x0 x1 c0 c1 eps = autofunc0 c0 c1 x0 x1 eps`. -/
theorem autofunc0_symm (x0 x1 c0 c1 eps : ℝ) :
    autofunc0 x0 x1 c0 c1 eps = autofunc0 c0 c1 x0 x1 eps := by
  unfold autofunc0
  rw [show (-c0 + x0) ^ 2 + (-c1 + x1) ^ 2
      = (-x0 + c0) ^ 2 + (-x1 + c1) ^ 2 by ring]

/-- C8: concrete evaluation: `autofunc0 3 4 0 0 2 = 10000000`
(the distance is `5` and `2^7 * 5^7 = 128 * 78125 = 10000000`). -/
theorem autofunc0_concrete : autofunc0 3 4 0 0 (2.0 : ℝ) = 10000000 := by
  have h : autofunc0 3 4 0 0 (2.0 : ℝ)
      = (2.0 : ℝ) ^ 7 * (Real.sqrt ((-0 + 3) ^ 2 + (-0 + 4) ^ 2)) ^ 7 :=
    autofunc0_of_ne (by norm_num)
  rw [h, show ((-0 + 3 : ℝ)) ^ 2 + (-0 + 4) ^ 2 = 5 ^ 2 by norm_num,
    Real.sqrt_sq (by norm_num)]
  norm_num

/-- C9: the `r ≤ 0` branch is a no-op safeguard for exponent 7: for every
input, the guarded `autofunc0` equals the unguarded formula
`eps^7 * ((x0-c0)^2 + (x1-c1)^2)^(7/2)`. -/
theorem autofunc0_guard_noop (x0 x1 c0 c1 eps : ℝ) :
    autofunc0 x0 x1 c0 c1 eps = evaluateUnguarded x0 x1 c0 c1 eps := by
  unfold evaluateUnguarded
  rw [d2_comm]
  by_cases h : (-c0 + x0) ^ 2 + (-c1 + x1) ^ 2 = 0
  · rw [autofunc0_of_eq h, h, Real.zero_rpow (by norm_num)]
    ring
  · rw [autofunc0_of_ne h, rpow_seven_halves (by positivity)]

/-- C10: translation invariance: for every translation `(t0, t1)`,
`autofunc0 (x0+t0) (x1+t1) (c0+t0) (c1+t1) eps = autofunc0 x0 x1 c0 c1 eps`. -/
theorem autofunc0_translation (x0 x1 c0 c1 eps t0 t1 : ℝ) :
    autofunc0 (x0 + t0) (x1 + t1) (c0 + t0) (c1 + t1) eps
      = autofunc0 x0 x1 c0 c1 eps := by
  unfold autofunc0
  rw [show (-(c0 + t0) + (x0 + t0)) ^ 2 + (-(c1 + t1) + (x1 + t1)) ^ 2
      = (-c0 + x0) ^ 2 + (-c1 + x1) ^ 2 by ring]
